import Mathlib

/-!
Verification of the humanoid-robotic-book RAG pipeline.

Shallow embedding of the core pipeline:
* `src/api/src/services/utils/chunker.py` — token-budget chunking with overlap
* `src/api/src/services/rag.py` — context/source assembly and retrieval
* `src/api/src/services/qdrant_service.py` — vector-index search wrapper
* `src/api/src/services/local_response_service.py` — local extractive responder
* `src/api/src/routes/chat.py` — off-topic classifier and fallback orchestration
* `src/api/src/services/llm_service.py` — multi-provider LLM failover
* `src/backend/src/services/rag_service.py` — hash-derived fallback embedding

Machine integers do not occur (Python ints are unbounded); floating point is
modelled over `ℚ` where the claims are not about rounding; fallible code
returns `Except Unit`; the tiktoken `cl100k_base` tokenizer is modelled as an
abstract encode/decode pair, per the spec's contract of a deterministic,
reversible encode/decode (spec §4.1 step 3).
-/

namespace Chunker

/-- Abstract tokenizer (tiktoken `cl100k_base` in the source): `encode` maps a
string to a token sequence, `decode` maps a token sequence back to text.
The token type `τ` is abstract (ints in tiktoken). -/
structure Tokenizer (τ : Type) where
  encode : String → List τ
  decode : List τ → String

/-- A concrete tokenizer instance used for witnesses: each character is one
token.  It satisfies the reversibility contract definitionally. -/
def charTok : Tokenizer Char :=
  { encode := fun s => s.data, decode := fun l => String.mk l }

/-- `count_tokens(text)` from chunker.py: the number of tokens of the encoded
text. -/
def count_tokens {τ : Type} (enc : Tokenizer τ) (text : String) : Nat :=
  (enc.encode text).length

/-- The window loop of `split_large_text` (chunker.py lines 126-147) at the
token level: starting from `start`, while `start < tokens.length`, take the
window `tokens[start : start+max_tokens]` (clamped at the end), and if
`start + max_tokens < tokens.length` continue at
`start + max_tokens - overlap_tokens` (Python's `end_idx - overlap_tokens`),
else stop.  The loop has no termination guarantee in the source, so it is
modelled with explicit fuel; `none` means the fuel ran out before the loop
finished. -/
def splitWindows {τ : Type} (tokens : List τ) (max_tokens overlap_tokens : Nat) :
    Nat → Nat → Option (List (List τ))
  | fuel, start =>
    if start < tokens.length then
      match fuel with
      | 0 => none
      | fuel + 1 =>
        let chunk_tokens := (tokens.drop start).take max_tokens
        if start + max_tokens < tokens.length then
          (splitWindows tokens max_tokens overlap_tokens fuel
            (start + max_tokens - overlap_tokens)).map (chunk_tokens :: ·)
        else
          some [chunk_tokens]
    else
      some []

/-- The same loop, decoding each window back to text as the source does
(`chunk_text = encoding.decode(chunk_tokens)`). -/
def split_large_text_loop {τ : Type} (enc : Tokenizer τ) (tokens : List τ)
    (max_tokens overlap_tokens : Nat) : Nat → Nat → Option (List String)
  | fuel, start =>
    if start < tokens.length then
      match fuel with
      | 0 => none
      | fuel + 1 =>
        let chunk_tokens := (tokens.drop start).take max_tokens
        let chunk_text := enc.decode chunk_tokens
        if start + max_tokens < tokens.length then
          (split_large_text_loop enc tokens max_tokens overlap_tokens fuel
            (start + max_tokens - overlap_tokens)).map (chunk_text :: ·)
        else
          some [chunk_text]
    else
      some []

/-- `split_large_text(text, max_tokens, overlap_tokens)` from chunker.py:
encode the text, run the window loop from index 0.  Fuel `tokens.length`
suffices whenever `overlap_tokens < max_tokens` (each step advances `start`
by at least one token). -/
def split_large_text {τ : Type} (enc : Tokenizer τ) (text : String)
    (max_tokens overlap_tokens : Nat) : Option (List String) :=
  split_large_text_loop enc (enc.encode text) max_tokens overlap_tokens
    (enc.encode text).length 0

/-- `chunk_with_token_limit(texts, max_tokens, overlap_tokens)` from
chunker.py: a text within the budget is kept as is, an over-sized text is
replaced by its `split_large_text` windows, preserving order. -/
def chunk_with_token_limit {τ : Type} (enc : Tokenizer τ) (texts : List String)
    (max_tokens overlap_tokens : Nat) : Option (List String) :=
  match texts with
  | [] => some []
  | t :: ts =>
    if count_tokens enc t ≤ max_tokens then
      (chunk_with_token_limit enc ts max_tokens overlap_tokens).map (t :: ·)
    else
      match split_large_text enc t max_tokens overlap_tokens with
      | none => none
      | some sub =>
        (chunk_with_token_limit enc ts max_tokens overlap_tokens).map (sub ++ ·)

/-- Python `str.strip()` on a character list: drop whitespace from both
ends. -/
def pyStripChars (cs : List Char) : List Char :=
  ((cs.dropWhile Char.isWhitespace).reverse.dropWhile Char.isWhitespace).reverse

/-- Python `str.strip()`. -/
def pyStrip (s : String) : String :=
  String.mk (pyStripChars s.data)

/-- The chunk texts produced by `chunk_file` (chunker.py lines 207-238) after
the heading split: `chunk_with_token_limit` over the heading segments, keeping
only chunks whose stripped text is non-empty (`if chunk.strip()`).  The
heading segmentation itself is passed in as `heading_chunks`. -/
def chunk_file_texts {τ : Type} (enc : Tokenizer τ) (heading_chunks : List String)
    (max_tokens overlap_tokens : Nat) : Option (List String) :=
  (chunk_with_token_limit enc heading_chunks max_tokens overlap_tokens).map
    (fun cs => cs.filter (fun c => pyStrip c ≠ ""))

theorem splitWindows_length_le {τ : Type} (tokens : List τ)
    (max_tokens overlap_tokens : Nat) :
    ∀ fuel start ws, splitWindows tokens max_tokens overlap_tokens fuel start = some ws →
      ∀ w ∈ ws, w.length ≤ max_tokens := by
  intro fuel
  induction fuel with
  | zero =>
    intro start ws h w hw
    rw [splitWindows] at h
    by_cases hs : start < tokens.length
    · simp [hs] at h
    · simp [hs] at h
      subst h
      simp at hw
  | succ n ih =>
    intro start ws h w hw
    rw [splitWindows] at h
    by_cases hs : start < tokens.length
    · simp only [hs, if_true] at h
      by_cases hcont : start + max_tokens < tokens.length
      · simp only [hcont, if_true, Option.map_eq_some'] at h
        obtain ⟨ws2, hws2, rfl⟩ := h
        rcases List.mem_cons.mp hw with rfl | hw2
        · exact le_trans (List.length_take_le _ _) le_rfl
        · exact ih _ _ hws2 w hw2
      · simp only [hcont, if_false, Option.some_inj] at h
        subst h
        simp at hw
        subst hw
        exact le_trans (List.length_take_le _ _) le_rfl
    · simp [hs] at h
      subst h
      simp at hw

theorem split_large_text_loop_eq_windows {τ : Type} (enc : Tokenizer τ)
    (tokens : List τ) (max_tokens overlap_tokens : Nat) :
    ∀ fuel start,
      split_large_text_loop enc tokens max_tokens overlap_tokens fuel start =
        (splitWindows tokens max_tokens overlap_tokens fuel start).map
          (List.map enc.decode) := by
  intro fuel
  induction fuel with
  | zero =>
    intro start
    rw [split_large_text_loop, splitWindows]
    by_cases hs : start < tokens.length <;> simp [hs]
  | succ n ih =>
    intro start
    rw [split_large_text_loop, splitWindows]
    by_cases hs : start < tokens.length
    · simp only [hs, if_true]
      by_cases hcont : start + max_tokens < tokens.length
      · simp only [hcont, if_true, ih]
        cases splitWindows tokens max_tokens overlap_tokens n
            (start + max_tokens - overlap_tokens) <;> simp
      · simp [hcont]
    · simp [hs]

theorem splitWindows_isSome {τ : Type} (tokens : List τ)
    (max_tokens overlap_tokens : Nat) (hovl : overlap_tokens < max_tokens) :
    ∀ fuel start, tokens.length - start ≤ fuel →
      (splitWindows tokens max_tokens overlap_tokens fuel start).isSome := by
  intro fuel
  induction fuel with
  | zero =>
    intro start hle
    rw [splitWindows]
    have hs : ¬ start < tokens.length := by omega
    simp [hs]
  | succ n ih =>
    intro start hle
    rw [splitWindows]
    by_cases hs : start < tokens.length
    · simp only [hs, if_true]
      by_cases hcont : start + max_tokens < tokens.length
      · simp only [hcont, if_true]
        have := ih (start + max_tokens - overlap_tokens) (by omega)
        cases hw : splitWindows tokens max_tokens overlap_tokens n
            (start + max_tokens - overlap_tokens) with
        | none => rw [hw] at this; simp at this
        | some ws => simp
      · simp [hcont]
    · simp [hs]

theorem splitWindows_head {τ : Type} (tokens : List τ)
    (max_tokens overlap_tokens : Nat) :
    ∀ fuel start ws,
      splitWindows tokens max_tokens overlap_tokens fuel start = some ws →
      start < tokens.length →
      ∃ rest, ws = ((tokens.drop start).take max_tokens) :: rest := by
  intro fuel start ws h hs
  cases fuel with
  | zero => rw [splitWindows] at h; simp [hs] at h
  | succ n =>
    rw [splitWindows] at h
    simp only [hs, if_true] at h
    by_cases hcont : start + max_tokens < tokens.length
    · simp only [hcont, if_true, Option.map_eq_some'] at h
      obtain ⟨ws2, _, rfl⟩ := h
      exact ⟨ws2, rfl⟩
    · simp only [hcont, if_false, Option.some_inj] at h
      exact ⟨[], h.symm⟩

theorem splitWindows_overlap {τ : Type} (tokens : List τ)
    (max_tokens overlap_tokens : Nat) (hovl : overlap_tokens < max_tokens) :
    ∀ fuel start ws,
      splitWindows tokens max_tokens overlap_tokens fuel start = some ws →
      ∀ i (h : i + 1 < ws.length),
        (ws.get ⟨i + 1, h⟩).take overlap_tokens =
          (ws.get ⟨i, Nat.lt_of_succ_lt h⟩).drop
            ((ws.get ⟨i, Nat.lt_of_succ_lt h⟩).length - overlap_tokens) := by
  intro fuel
  induction fuel with
  | zero =>
    intro start ws h i hi
    rw [splitWindows] at h
    by_cases hs : start < tokens.length
    · simp [hs] at h
    · simp [hs] at h
      subst h
      simp at hi
  | succ n ih =>
    intro start ws h i hi
    rw [splitWindows] at h
    by_cases hs : start < tokens.length
    · simp only [hs, if_true] at h
      by_cases hcont : start + max_tokens < tokens.length
      · simp only [hcont, if_true, Option.map_eq_some'] at h
        obtain ⟨ws2, hws2, rfl⟩ := h
        cases i with
        | zero =>
          have hstart2 : start + max_tokens - overlap_tokens < tokens.length := by
            omega
          obtain ⟨rest, hrest⟩ :=
            splitWindows_head tokens max_tokens overlap_tokens n
              (start + max_tokens - overlap_tokens) ws2 hws2 hstart2
          subst hrest
          simp only [List.get_eq_getElem, List.getElem_cons_succ,
            List.getElem_cons_zero]
          rw [List.take_take, List.drop_take, List.drop_drop]
          have h1 : min overlap_tokens max_tokens = overlap_tokens := by omega
          have h2 : ((tokens.drop start).take max_tokens).length = max_tokens := by
            rw [List.length_take, List.length_drop]; omega
          rw [h1, h2]
          have h3 : max_tokens - (max_tokens - overlap_tokens) = overlap_tokens := by
            omega
          have h4 : start + (max_tokens - overlap_tokens) =
              start + max_tokens - overlap_tokens := by omega
          rw [h3, h4]
        | succ j =>
          have hj : j + 1 < ws2.length := by
            simpa using Nat.lt_of_succ_lt_succ hi
          have hres := ih (start + max_tokens - overlap_tokens) ws2 hws2 j hj
          simp only [List.get_eq_getElem] at hres ⊢
          simp only [List.getElem_cons_succ]
          exact hres
      · simp only [hcont, if_false, Option.some_inj] at h
        subst h
        simp at hi
    · simp [hs] at h
      subst h
      simp at hi

/-- C1: for every input text list, every `max_tokens ≥ 1` and every
`overlap_tokens < max_tokens`, every chunk returned by
`chunk_with_token_limit` — and hence every chunk text emitted by `chunk_file`
— has token count at most `max_tokens` under the same tokenizer, including
windows decoded back to text from token slices (the tokenizer satisfies the
spec's reversible encode/decode contract, `hrt`). -/
theorem chunk_with_token_limit_respects_budget {τ : Type} (enc : Tokenizer τ)
    (hrt : ∀ l : List τ, enc.encode (enc.decode l) = l)
    (texts : List String) (max_tokens overlap_tokens : Nat)
    (hmax : 1 ≤ max_tokens) (hovl : overlap_tokens < max_tokens) :
    (∀ out, chunk_with_token_limit enc texts max_tokens overlap_tokens = some out →
      ∀ c ∈ out, count_tokens enc c ≤ max_tokens) ∧
    (∀ out, chunk_file_texts enc texts max_tokens overlap_tokens = some out →
      ∀ c ∈ out, count_tokens enc c ≤ max_tokens) := by
  have hsplit : ∀ t sub, split_large_text enc t max_tokens overlap_tokens = some sub →
      ∀ c ∈ sub, count_tokens enc c ≤ max_tokens := by
    intro t sub hsub c hc
    rw [split_large_text, split_large_text_loop_eq_windows] at hsub
    rw [Option.map_eq_some'] at hsub
    obtain ⟨ws, hws, rfl⟩ := hsub
    rw [List.mem_map] at hc
    obtain ⟨w, hw, rfl⟩ := hc
    have hlen := splitWindows_length_le (enc.encode t) max_tokens overlap_tokens
      _ _ _ hws w hw
    rw [count_tokens, hrt]
    exact hlen
  have hmain : ∀ out, chunk_with_token_limit enc texts max_tokens overlap_tokens = some out →
      ∀ c ∈ out, count_tokens enc c ≤ max_tokens := by
    induction texts with
    | nil =>
      intro out h c hc
      rw [chunk_with_token_limit] at h
      simp at h
      subst h
      simp at hc
    | cons t ts ih =>
      intro out h c hc
      rw [chunk_with_token_limit] at h
      by_cases hcount : count_tokens enc t ≤ max_tokens
      · simp only [hcount, if_true, Option.map_eq_some'] at h
        obtain ⟨rest, hrest, rfl⟩ := h
        rcases List.mem_cons.mp hc with rfl | hc2
        · exact hcount
        · exact ih rest hrest c hc2
      · simp only [hcount, if_false] at h
        cases hsub : split_large_text enc t max_tokens overlap_tokens with
        | none => rw [hsub] at h; simp at h
        | some sub =>
          rw [hsub] at h
          simp only [Option.map_eq_some'] at h
          obtain ⟨rest, hrest, rfl⟩ := h
          rcases List.mem_append.mp hc with hc1 | hc2
          · exact hsplit t sub hsub c hc1
          · exact ih rest hrest c hc2
  refine ⟨hmain, ?_⟩
  intro out h c hc
  rw [chunk_file_texts, Option.map_eq_some'] at h
  obtain ⟨cs, hcs, rfl⟩ := h
  exact hmain cs hcs c (List.mem_of_mem_filter hc)

/-- C1 witness: the theorem applied to the character tokenizer, the single
over-sized text "aaaa", `max_tokens = 2`, `overlap_tokens = 1`, whose chunk
list is `["aa", "aa", "aa"]`. -/
theorem chunk_with_token_limit_respects_budget_witness :
    count_tokens charTok "aa" ≤ 2 :=
  (chunk_with_token_limit_respects_budget charTok (fun _ => rfl) ["aaaa"] 2 1
      (by decide) (by decide)).1
    ["aa", "aa", "aa"] (by decide) "aa" (by simp)

/-- C2: for every text whose token count exceeds `max_tokens` and every
`overlap_tokens < max_tokens`, in the window list produced by
`split_large_text` the token sequence of window `i+1` begins with exactly the
last `overlap_tokens` tokens of window `i`, for every pair of consecutive
windows, including the final possibly-shorter window. -/
theorem split_large_text_overlap {τ : Type} (enc : Tokenizer τ)
    (hrt : ∀ l : List τ, enc.encode (enc.decode l) = l)
    (text : String) (max_tokens overlap_tokens : Nat)
    (hovl : overlap_tokens < max_tokens)
    (hbig : max_tokens < count_tokens enc text) :
    ∀ cs, split_large_text enc text max_tokens overlap_tokens = some cs →
      ∀ i (h : i + 1 < cs.length),
        (enc.encode (cs.get ⟨i + 1, h⟩)).take overlap_tokens =
          (enc.encode (cs.get ⟨i, Nat.lt_of_succ_lt h⟩)).drop
            ((enc.encode (cs.get ⟨i, Nat.lt_of_succ_lt h⟩)).length -
              overlap_tokens) := by
  intro cs hcs i h
  rw [split_large_text, split_large_text_loop_eq_windows,
    Option.map_eq_some'] at hcs
  obtain ⟨ws, hws, rfl⟩ := hcs
  have h2 : i + 1 < ws.length := by simpa using h
  have hov := splitWindows_overlap (enc.encode text) max_tokens overlap_tokens hovl
    _ _ ws hws i h2
  simp only [List.get_eq_getElem] at hov ⊢
  simp only [List.getElem_map, hrt]
  exact hov

/-- C2 witness: the theorem applied to the character tokenizer, text "aaaa",
`max_tokens = 2`, `overlap_tokens = 1`, windows `["aa", "aa", "aa"]`, at the
first pair of consecutive windows. -/
theorem split_large_text_overlap_witness :
    (charTok.encode ((["aa", "aa", "aa"] : List String).get ⟨1, by decide⟩)).take 1 =
      (charTok.encode ((["aa", "aa", "aa"] : List String).get ⟨0, by decide⟩)).drop
        ((charTok.encode ((["aa", "aa", "aa"] : List String).get ⟨0, by decide⟩)).length - 1) :=
  split_large_text_overlap charTok (fun _ => rfl) "aaaa" 2 1 (by decide) (by decide)
    ["aa", "aa", "aa"] (by decide) 0 (by decide)

/-- C6: the code neither rejects nor clamps `overlap_tokens ≥ max_tokens`:
on the two-token text "ab" with `max_tokens = 1` and `overlap_tokens = 1`,
`start_idx` is reset to `end_idx - overlap_tokens = 0` on every iteration, so
the window loop of `split_large_text` never terminates — no amount of fuel
makes the loop finish. -/
theorem split_large_text_loop_diverges :
    ∀ fuel, split_large_text_loop charTok ("ab".data) 1 1 fuel 0 = none := by
  intro fuel
  induction fuel with
  | zero => rw [split_large_text_loop]; decide
  | succ n ih =>
    rw [split_large_text_loop]
    have h1 : (0 : Nat) < ("ab".data).length := by decide
    have h2 : 0 + 1 < ("ab".data).length := by decide
    simp only [h1, if_true, h2, if_true]
    have h3 : 0 + 1 - 1 = 0 := by decide
    rw [h3, ih]
    rfl

end Chunker

namespace RAG

/-- A retrieval hit as consumed by `RAGService.build_context` (rag.py lines
64-96): the chunk text plus the `section_title` / `source_url` fields of its
metadata (`metadata.get` with a default, so each is optional). -/
structure Hit where
  text : String
  section_title : Option String
  source_url : Option String
deriving DecidableEq

/-- A source entry `{title, url}`. -/
structure Source where
  title : String
  url : String
deriving DecidableEq

/-- The `source_info` dict built per hit:
`metadata.get("section_title", "Unknown Section")` and
`metadata.get("source_url", "")`. -/
def sourceOf (h : Hit) : Source :=
  { title := h.section_title.getD "Unknown Section"
    url := h.source_url.getD "" }

/-- `RAGService.build_context(hits)`: one pass over the hits accumulating the
context parts and the deduplicated source list (`if source_info not in
sources`), then joining the parts with a blank-line separator. -/
def build_context (hits : List Hit) : String × List Source :=
  let acc := hits.foldl
    (fun (acc : List String × List Source) h =>
      let si := sourceOf h
      (acc.1 ++ [h.text], if si ∈ acc.2 then acc.2 else acc.2 ++ [si]))
    ([], [])
  (String.intercalate "\n\n" acc.1, acc.2)

/-- Stated from the claim's words: for each distinct value, exactly one entry,
placed at the position of that value's first occurrence. -/
def keepFirsts {α : Type} [DecidableEq α] : List α → List α
  | [] => []
  | a :: l => a :: keepFirsts (l.filter (fun x => x ≠ a))
termination_by l => l.length
decreasing_by
  simp only [List.length_cons]
  exact Nat.lt_succ_of_le (List.length_filter_le _ _)

theorem keepFirsts_nil {α : Type} [DecidableEq α] :
    keepFirsts ([] : List α) = [] := by
  rw [keepFirsts]

theorem keepFirsts_cons {α : Type} [DecidableEq α] (a : α) (l : List α) :
    keepFirsts (a :: l) = a :: keepFirsts (l.filter (fun x => x ≠ a)) := by
  rw [keepFirsts]

theorem build_context_fold (hits : List Hit) :
    ∀ (cp : List String) (src : List Source),
      hits.foldl
        (fun (acc : List String × List Source) h =>
          let si := sourceOf h
          (acc.1 ++ [h.text], if si ∈ acc.2 then acc.2 else acc.2 ++ [si]))
        (cp, src) =
      (cp ++ hits.map Hit.text,
        src ++ keepFirsts ((hits.map sourceOf).filter (fun x => x ∉ src))) := by
  induction hits with
  | nil => intro cp src; simp [keepFirsts_nil]
  | cons h hs ih =>
    intro cp src
    rw [List.foldl_cons]
    by_cases hmem : sourceOf h ∈ src
    · simp only [hmem, if_true]
      rw [ih]
      have hfil : ((h :: hs).map sourceOf).filter (fun x => x ∉ src) =
          (hs.map sourceOf).filter (fun x => x ∉ src) := by
        simp only [List.map_cons, List.filter_cons]
        simp [hmem]
      rw [hfil]
      simp [List.append_assoc]
    · simp only [hmem, if_false]
      rw [ih]
      have hfil : ((h :: hs).map sourceOf).filter (fun x => x ∉ src) =
          sourceOf h :: (hs.map sourceOf).filter (fun x => x ∉ src) := by
        simp only [List.map_cons, List.filter_cons]
        simp [hmem]
      have h2 : (hs.map sourceOf).filter (fun x => x ∉ src ++ [sourceOf h]) =
          ((hs.map sourceOf).filter (fun x => x ∉ src)).filter
            (fun x => x ≠ sourceOf h) := by
        rw [List.filter_filter]
        refine List.filter_congr (fun x _ => ?_)
        by_cases hx : x ∈ src <;> by_cases hy : x = sourceOf h <;>
          simp [hx, hy]
      rw [hfil, keepFirsts_cons, h2]
      simp [List.append_assoc]

/-- C4: `build_context` returns the hits' texts joined in list order with a
blank-line separator, and a sources list containing, for each distinct
(title, url) pair derived from the hits' metadata, exactly one entry at the
position of that pair's first occurrence; on the empty hit list it returns
the empty string and the empty sources list. -/
theorem build_context_spec (hits : List Hit) :
    build_context hits =
      (String.intercalate "\n\n" (hits.map Hit.text),
        keepFirsts (hits.map sourceOf)) ∧
    build_context ([] : List Hit) = ("", []) := by
  constructor
  · rw [build_context, build_context_fold]
    simp only [List.nil_append]
    have : (hits.map sourceOf).filter (fun x => x ∉ ([] : List Source)) =
        hits.map sourceOf := by
      refine List.filter_eq_self.mpr (fun x _ => ?_)
      simp
    rw [this]
  · rfl

end RAG

namespace PyStr

/-- Bool-valued list prefix test (needle against haystack). -/
def isPrefixB : List Char → List Char → Bool
  | [], _ => true
  | _ :: _, [] => false
  | a :: as, b :: bs => a == b && isPrefixB as bs

/-- Bool-valued substring test on character lists: the needle occurs as a
contiguous run somewhere in the haystack (the empty needle always occurs). -/
def containsSubList (nd : List Char) : List Char → Bool
  | [] => isPrefixB nd []
  | c :: t => isPrefixB nd (c :: t) || containsSubList nd t

/-- Python's `needle in hay` on strings. -/
def str_in (needle hay : String) : Bool :=
  containsSubList needle.data hay.data

/-- Python's `str.lower()` (ASCII case folding, which covers every string the
source compares). -/
def lowerStr (s : String) : String :=
  String.mk (s.data.map Char.toLower)

theorem isPrefixB_exists (nd : List Char) :
    ∀ hay, isPrefixB nd hay = true → ∃ r, hay = nd ++ r := by
  induction nd with
  | nil => intro hay _; exact ⟨hay, rfl⟩
  | cons a as ih =>
    intro hay h
    cases hay with
    | nil => simp [isPrefixB] at h
    | cons b bs =>
      rw [isPrefixB, Bool.and_eq_true] at h
      obtain ⟨hab, hpre⟩ := h
      obtain ⟨r, hr⟩ := ih bs hpre
      have hab2 : a = b := eq_of_beq hab
      subst hab2
      exact ⟨r, by rw [hr, List.cons_append]⟩

theorem containsSubList_exists (nd : List Char) :
    ∀ hay, containsSubList nd hay = true → ∃ l r, hay = l ++ nd ++ r := by
  intro hay
  induction hay with
  | nil =>
    intro h
    rw [containsSubList] at h
    obtain ⟨r, hr⟩ := isPrefixB_exists nd [] h
    exact ⟨[], r, by simpa using hr⟩
  | cons c t ih =>
    intro h
    rw [containsSubList, Bool.or_eq_true] at h
    rcases h with h | h
    · obtain ⟨r, hr⟩ := isPrefixB_exists nd (c :: t) h
      exact ⟨[], r, by simpa using hr⟩
    · obtain ⟨l, r, hr⟩ := ih h
      exact ⟨c :: l, r, by rw [hr]; rfl⟩

end PyStr

namespace ChatRoute

open PyStr

/-- chat.py `off_topic_keywords` (lines 112-123). -/
def off_topic_keywords : List String :=
  ["cook", "food", "recipe", "pasta", "pizza", "weather", "sports", "movie",
   "film", "music", "celebrity", "actor", "actress", "game", "football",
   "basketball", "soccer", "stock", "finance", "money", "investment",
   "politics", "election", "president", "health", "medical", "doctor",
   "medicine", "treatment", "disease", "virus", "travel", "vacation", "hotel",
   "restaurant", "tourist", "sightseeing", "car", "automobile", "driving",
   "engine", "mechanic", "gasoline", "fashion", "clothing", "dress", "shoes",
   "designer", "style", "education", "school", "university", "student",
   "teacher", "classroom", "programming", "software", "computer", "code",
   "developer", "python", "javascript"]

/-- chat.py `general_keywords` (line 133): greetings / short
acknowledgements allowed through. -/
def general_keywords : List String :=
  ["hello", "hi", "how are you", "what is your name", "who are you",
   "what can you do"]

/-- chat.py `book_related_keywords` (lines 138-144). -/
def book_related_keywords : List String :=
  ["humanoid", "robot", "robotics", "ai", "artificial intelligence",
   "physical ai", "embodied", "cognition", "perception", "locomotion",
   "manipulation", "control", "sensors", "actuators", "navigation", "gait",
   "balance", "bipedal", "locomotion", "human-robot", "interaction",
   "embodiment", "grounded", "cognition", "sensory", "motor", "behavior",
   "learning", "machine learning", "neural", "network"]

/-- chat.py `off_topic_patterns` (lines 150-154). -/
def off_topic_patterns : List String :=
  ["favorite", "best", "top", "how to make", "how to cook", "recipe for",
   "weather in", "what time is", "where is", "how far is", "when was",
   "who invented", "who discovered", "who created"]

/-- The canned off-topic reply (chat.py lines 127, 156). -/
def off_topic_message : String :=
  "I can only answer questions about the Physical AI & Humanoid Robotics textbook. Please ask questions related to the book content."

/-- `check_off_topic_query(message)` (chat.py lines 107-159): lowercase the
message; return the canned reply on the first off-topic keyword hit; then let
greeting/general queries through; then, if no book-related keyword occurs and
an off-topic pattern occurs, return the canned reply; otherwise `None`. -/
def check_off_topic_query (message : String) : Option String :=
  let ml := lowerStr message
  if off_topic_keywords.any (fun k => str_in k ml) then
    some off_topic_message
  else if general_keywords.any (fun k => str_in k ml) then
    none
  else if !(book_related_keywords.any (fun k => str_in k ml)) &&
      off_topic_patterns.any (fun p => str_in p ml) then
    some off_topic_message
  else
    none

/-- C5 counterexample: "hi, best pizza recipe" matches the
greeting/short-acknowledgement set (it contains "hi"), yet
`check_off_topic_query` classifies it as off-topic, because the off-topic
keyword check runs before the greeting check — refuting the claim that a
greeting-matching query is never off-topic. -/
theorem check_off_topic_query_greeting_overridden :
    check_off_topic_query "hi, best pizza recipe" = some off_topic_message ∧
    general_keywords.any
      (fun k => str_in k (lowerStr "hi, best pizza recipe")) = true := by
  constructor
  · rfl
  · rfl

/-- C5 amended: the off-topic keyword check applies before the greeting
check, so a query matching the greeting/short-acknowledgement set is
classified as a greeting (not off-topic) only when it contains no off-topic
keyword; the three examples hold: "hello" is not off-topic (greeting),
"best pizza recipe" is off-topic, and "explain bipedal locomotion" is not
off-topic. -/
theorem check_off_topic_query_order :
    (∀ m : String,
      general_keywords.any (fun k => str_in k (lowerStr m)) = true →
      off_topic_keywords.any (fun k => str_in k (lowerStr m)) = false →
      check_off_topic_query m = none) ∧
    check_off_topic_query "hello" = none ∧
    check_off_topic_query "best pizza recipe" = some off_topic_message ∧
    check_off_topic_query "explain bipedal locomotion" = none := by
  refine ⟨?_, rfl, rfl, rfl⟩
  intro m h1 h2
  rw [check_off_topic_query]
  simp only [h1, h2]
  rfl

/-- C5 witness: the amended theorem applied to "hello". -/
theorem check_off_topic_query_order_witness :
    check_off_topic_query "hello" = none :=
  check_off_topic_query_order.1 "hello" (by rfl) (by rfl)

end ChatRoute

namespace LocalResponse

open PyStr

/-- local_response_service.py `book_related_keywords` (line 31) — a
different list from the chat-route one. -/
def book_related_keywords : List String :=
  ["humanoid", "robotics", "physical ai", "ai", "robot",
   "artificial intelligence", "machine learning", "perception", "navigation",
   "manipulation", "control", "locomotion", "embodied", "cognition",
   "robotic", "sensors", "actuators", "locomotion", "bipedal", "gait",
   "balance", "human-robot", "interaction", "embodiment", "grounded",
   "cognition"]

/-- local_response_service.py `stop_words` (line 70). -/
def stop_words : List String :=
  ["the", "a", "an", "and", "or", "but", "in", "on", "at", "to", "for", "of",
   "with", "by", "is", "are", "was", "were", "be", "been", "being", "have",
   "has", "had", "do", "does", "did", "will", "would", "could", "should",
   "may", "might", "must", "can", "this", "that", "these", "those"]

/-- A regex `\w` word character (ASCII): letter, digit or underscore. -/
def isWordChar (c : Char) : Bool :=
  c.isAlphanum || c == '_'

/-- Accumulator pass for the maximal word-character runs: `acc` holds the
reversed run currently being read. -/
def wordRunsAux : List Char → List Char → List (List Char)
  | [], acc => if acc.isEmpty then [] else [acc.reverse]
  | c :: cs, acc =>
    if isWordChar c then
      wordRunsAux cs (c :: acc)
    else if acc.isEmpty then
      wordRunsAux cs []
    else
      acc.reverse :: wordRunsAux cs []

/-- The maximal word-character runs of a character list: the matches of
`re.findall(r'\b\w+\b', text)`. -/
def wordRuns (cs : List Char) : List (List Char) :=
  wordRunsAux cs []

/-- `LocalResponseService._extract_keywords(text)` (lines 59-72): the words
of the text that are not stop words and have length > 2 (the caller passes
`prompt.lower()`). -/
def extract_keywords (text : String) : List String :=
  ((wordRuns text.data).map String.mk).filter
    (fun w => !(stop_words.contains w) && decide (2 < w.length))

/-- A sentence separator of `re.split(r'[.!?]+', context)`. -/
def isSentenceSep (c : Char) : Bool :=
  c == '.' || c == '!' || c == '?'

mutual

/-- Piece-building state of `re.split` with a one-or-more character-class
pattern: `cur` holds the reversed piece currently being read. -/
def splitRunsAux (p : Char → Bool) : List Char → List Char → List (List Char)
  | [], cur => [cur.reverse]
  | c :: cs, cur =>
    if p c then
      cur.reverse :: splitRunsSkip p cs
    else
      splitRunsAux p cs (c :: cur)

/-- Separator-skipping state: consume the rest of a separator run, then
resume building the next piece (a trailing run yields a final empty
piece, as Python's `re.split` does). -/
def splitRunsSkip (p : Char → Bool) : List Char → List (List Char)
  | [] => [[]]
  | c :: cs =>
    if p c then
      splitRunsSkip p cs
    else
      splitRunsAux p cs [c]

end

/-- `re.split` with a one-or-more character-class pattern: split the list at
every maximal run of separator characters; empty pieces at the ends are
kept, as Python does. -/
def splitRuns (p : Char → Bool) (cs : List Char) : List (List Char) :=
  splitRunsAux p cs []

/-- The sentence list of a context string. -/
def sentencesOf (context : String) : List String :=
  (splitRuns isSentenceSep context.data).map String.mk

/-- `sum(1 for keyword in keywords if keyword in sentence_lower)`. -/
def count_keyword_matches (keywords : List String) (sentence : String) : Nat :=
  keywords.countP (fun k => str_in k (lowerStr sentence))

/-- One insertion step of Python's stable `list.sort(key=..., reverse=True)`:
`x` is placed before the first element whose match count is at most `x`'s,
so elements with equal counts keep their original relative order. -/
def insertByCountDesc (keywords : List String) (x : String) :
    List String → List String
  | [] => [x]
  | y :: ys =>
    if count_keyword_matches keywords y ≤ count_keyword_matches keywords x then
      x :: y :: ys
    else
      y :: insertByCountDesc keywords x ys

/-- Python's stable sort by match count, descending
(`relevant_sentences.sort(key=..., reverse=True)`). -/
def sortByCountDesc (keywords : List String) : List String → List String
  | [] => []
  | a :: l => insertByCountDesc keywords a (sortByCountDesc keywords l)

/-- The sentence-collection loop of `_find_relevant_sentences` (lines
85-95): keep each sentence with at least one keyword match whose stripped
form is non-empty, storing the stripped form. -/
def keptSentences (context : String) (keywords : List String) : List String :=
  (sentencesOf context).foldl
    (fun acc s =>
      if 0 < count_keyword_matches keywords s then
        if Chunker.pyStrip s ≠ "" then acc ++ [Chunker.pyStrip s] else acc
      else acc)
    []

/-- `LocalResponseService._find_relevant_sentences(context, keywords)`
(lines 74-102). -/
def find_relevant_sentences (context : String) (keywords : List String) :
    List String :=
  sortByCountDesc keywords (keptSentences context keywords)

/-- The canned scope message (lines 36, 44). -/
def scope_message : String :=
  "I can only answer questions about the Physical AI & Humanoid Robotics textbook. Please ask questions related to the book content."

/-- The canned no-information message (line 46). -/
def no_info_message : String :=
  "I couldn't find relevant information in the book to answer your question."

/-- The pure tail of `LocalResponseService.generate_response` (lines 44-57),
once the context string is in hand: the canned scope / no-information
replies for a blank context, the extractive answer when some sentence
matches, else the truncated raw context. -/
def answer_from_context (prompt ctx : String) : String :=
  let is_related := book_related_keywords.any
    (fun k => str_in k (lowerStr prompt))
  if Chunker.pyStrip ctx == "" && !is_related then
    scope_message
  else if Chunker.pyStrip ctx == "" then
    no_info_message
  else
    let query_keywords := extract_keywords (lowerStr prompt)
    let relevant_sentences := find_relevant_sentences ctx query_keywords
    if relevant_sentences ≠ [] then
      "Based on the book content:\n\n" ++
        String.intercalate "\n" (relevant_sentences.take 3)
    else if 500 < ctx.length then
      "Based on the book content: " ++ ctx.take 500 ++ "..."
    else
      "Based on the book content: " ++ ctx

/-- `LocalResponseService.generate_response(prompt, context)` (lines 19-57).
The `retrieve` call made when no context is supplied is modelled by
`retrieveHits`, this request's retrieval outcome (`Except.error` when the
underlying search raises, which rag.py's `retrieve` propagates — so the
whole call raises); a `None` or empty context both behave as the empty
string. -/
def generate_response (prompt context : String)
    (retrieveHits : Except Unit (List RAG.Hit)) : Except Unit String :=
  let is_related := book_related_keywords.any
    (fun k => str_in k (lowerStr prompt))
  if !is_related && context == "" then
    Except.ok scope_message
  else
    (if context == "" then
      retrieveHits.map (fun hits => (RAG.build_context hits).1)
    else
      Except.ok context).map (answer_from_context prompt)

/-- The kept sentences grouped into buckets by match count, one bucket per
value of `cs`, in the order of `cs`; inside a bucket the original order is
preserved. -/
def bucketsOf (keywords : List String) (cs : List Nat) (l : List String) :
    List String :=
  (cs.map (fun c => l.filter (fun s => count_keyword_matches keywords s = c))).join

/-- Stated from the claim's words: the kept sentences in descending match
count order with the original sentence order preserved on ties — for each
possible count from the highest down, the kept sentences with that count in
original order (a sentence's count never exceeds the number of query
keywords). -/
def rankedByCountDesc (keywords : List String) (l : List String) : List String :=
  bucketsOf keywords ((List.range (keywords.length + 1)).reverse) l

theorem bucketsOf_nil (keywords : List String) (cs : List Nat) :
    bucketsOf keywords cs [] = [] := by
  induction cs with
  | nil => rfl
  | cons c cs ih => simp only [bucketsOf, List.map_cons, List.join] at ih ⊢; simp [ih]

theorem bucketsOf_cons_bucket (keywords : List String) (c : Nat) (cs : List Nat)
    (l : List String) :
    bucketsOf keywords (c :: cs) l =
      l.filter (fun s => count_keyword_matches keywords s = c) ++
        bucketsOf keywords cs l := by
  simp [bucketsOf]

theorem count_mem_of_mem_bucketsOf (keywords : List String) :
    ∀ (cs : List Nat) (l : List String) (y : String),
      y ∈ bucketsOf keywords cs l → count_keyword_matches keywords y ∈ cs := by
  intro cs
  induction cs with
  | nil => intro l y hy; simp [bucketsOf] at hy
  | cons c cs ih =>
    intro l y hy
    rw [bucketsOf_cons_bucket] at hy
    rcases List.mem_append.mp hy with hy | hy
    · have := (List.mem_filter.mp hy).2
      simp at this
      simp [this]
    · exact List.mem_cons_of_mem _ (ih l y hy)

theorem bucketsOf_cons_of_count_notMem (keywords : List String) (x : String) :
    ∀ (cs : List Nat) (l : List String),
      count_keyword_matches keywords x ∉ cs →
      bucketsOf keywords cs (x :: l) = bucketsOf keywords cs l := by
  intro cs
  induction cs with
  | nil => intro l _; rfl
  | cons c cs ih =>
    intro l hmem
    rw [bucketsOf_cons_bucket, bucketsOf_cons_bucket]
    have hc : count_keyword_matches keywords x ≠ c := fun h => hmem (by simp [h])
    rw [List.filter_cons]
    rw [ih l (fun h => hmem (List.mem_cons_of_mem _ h))]
    simp [hc]

theorem insertByCountDesc_eq_cons (keywords : List String) (x : String)
    (L : List String)
    (h : ∀ y ∈ L, count_keyword_matches keywords y ≤
      count_keyword_matches keywords x) :
    insertByCountDesc keywords x L = x :: L := by
  cases L with
  | nil => rfl
  | cons y ys =>
    rw [insertByCountDesc]
    simp [h y (List.mem_cons_self y ys)]

theorem insertByCountDesc_append (keywords : List String) (x : String)
    (L1 L2 : List String)
    (h : ∀ y ∈ L1, count_keyword_matches keywords x <
      count_keyword_matches keywords y) :
    insertByCountDesc keywords x (L1 ++ L2) =
      L1 ++ insertByCountDesc keywords x L2 := by
  induction L1 with
  | nil => simp
  | cons y ys ih =>
    rw [List.cons_append, insertByCountDesc]
    have hy := h y (List.mem_cons_self y ys)
    simp only [Nat.not_le.mpr hy, if_false]
    rw [ih (fun z hz => h z (List.mem_cons_of_mem _ hz))]
    rfl

theorem insertByCountDesc_bucketsOf (keywords : List String) (x : String) :
    ∀ (cs : List Nat) (l : List String), cs.Pairwise (· > ·) →
      count_keyword_matches keywords x ∈ cs →
      insertByCountDesc keywords x (bucketsOf keywords cs l) =
        bucketsOf keywords cs (x :: l) := by
  intro cs
  induction cs with
  | nil => intro l _ hmem; simp at hmem
  | cons c cs ih =>
    intro l hpw hmem
    have hlt : ∀ c' ∈ cs, c' < c := fun c' hc' =>
      (List.pairwise_cons.mp hpw).1 c' hc'
    rw [bucketsOf_cons_bucket, bucketsOf_cons_bucket]
    by_cases hc : count_keyword_matches keywords x = c
    · have hfil : (x :: l).filter
          (fun s => count_keyword_matches keywords s = c) =
          x :: l.filter (fun s => count_keyword_matches keywords s = c) := by
        rw [List.filter_cons]
        simp [hc]
      have hnotmem : count_keyword_matches keywords x ∉ cs := by
        rw [hc]
        intro hmem2
        exact absurd (hlt c hmem2) (lt_irrefl c)
      rw [hfil, bucketsOf_cons_of_count_notMem keywords x cs l hnotmem]
      refine insertByCountDesc_eq_cons keywords x _ (fun y hy => ?_)
      rcases List.mem_append.mp hy with hy | hy
      · have := (List.mem_filter.mp hy).2
        simp at this
        omega
      · have := hlt _ (count_mem_of_mem_bucketsOf keywords cs l y hy)
        omega
    · have hmem' : count_keyword_matches keywords x ∈ cs := by
        rcases List.mem_cons.mp hmem with h | h
        · exact absurd h hc
        · exact h
      have hfil : (x :: l).filter
          (fun s => count_keyword_matches keywords s = c) =
          l.filter (fun s => count_keyword_matches keywords s = c) := by
        rw [List.filter_cons]
        simp [hc]
      have hgt : ∀ y ∈ l.filter (fun s => count_keyword_matches keywords s = c),
          count_keyword_matches keywords x < count_keyword_matches keywords y := by
        intro y hy
        have := (List.mem_filter.mp hy).2
        simp at this
        have := hlt _ hmem'
        omega
      rw [insertByCountDesc_append keywords x _ _ hgt,
        ih l (List.pairwise_cons.mp hpw).2 hmem', hfil]

theorem sortByCountDesc_eq_bucketsOf (keywords : List String) :
    ∀ (l : List String) (cs : List Nat), cs.Pairwise (· > ·) →
      (∀ s ∈ l, count_keyword_matches keywords s ∈ cs) →
      sortByCountDesc keywords l = bucketsOf keywords cs l := by
  intro l
  induction l with
  | nil => intro cs _ _; rw [bucketsOf_nil]; rfl
  | cons a l ih =>
    intro cs hpw hmem
    rw [sortByCountDesc, ih cs hpw (fun s hs => hmem s (List.mem_cons_of_mem _ hs)),
      insertByCountDesc_bucketsOf keywords a cs l hpw
        (hmem a (List.mem_cons_self a l))]

theorem sortByCountDesc_eq_ranked (keywords : List String) (l : List String) :
    sortByCountDesc keywords l = rankedByCountDesc keywords l := by
  refine sortByCountDesc_eq_bucketsOf keywords l _ ?_ ?_
  · rw [List.pairwise_reverse]
    simpa using List.pairwise_lt_range (keywords.length + 1)
  · intro s _
    rw [List.mem_reverse, List.mem_range]
    exact Nat.lt_succ_of_le (List.countP_le_length _)

theorem insertByCountDesc_length (keywords : List String) (x : String) :
    ∀ L, (insertByCountDesc keywords x L).length = L.length + 1 := by
  intro L
  induction L with
  | nil => rfl
  | cons y ys ih =>
    rw [insertByCountDesc]
    by_cases h : count_keyword_matches keywords y ≤
        count_keyword_matches keywords x
    · simp [h]
    · simp only [h, if_false, List.length_cons, ih]

theorem sortByCountDesc_length (keywords : List String) :
    ∀ l, (sortByCountDesc keywords l).length = l.length := by
  intro l
  induction l with
  | nil => rfl
  | cons a l ih =>
    rw [sortByCountDesc, insertByCountDesc_length, ih, List.length_cons]

theorem keptSentences_eq (context : String) (keywords : List String) :
    keptSentences context keywords =
      ((sentencesOf context).filter
        (fun s => decide (0 < count_keyword_matches keywords s) &&
          decide (Chunker.pyStrip s ≠ ""))).map Chunker.pyStrip := by
  rw [keptSentences]
  generalize sentencesOf context = L
  suffices h : ∀ acc, L.foldl
      (fun acc s =>
        if 0 < count_keyword_matches keywords s then
          if Chunker.pyStrip s ≠ "" then acc ++ [Chunker.pyStrip s] else acc
        else acc) acc =
      acc ++ (L.filter (fun s => decide (0 < count_keyword_matches keywords s) &&
        decide (Chunker.pyStrip s ≠ ""))).map Chunker.pyStrip by
    simpa using h []
  induction L with
  | nil => intro acc; simp
  | cons s L ih =>
    intro acc
    rw [List.foldl_cons, List.filter_cons]
    by_cases h1 : 0 < count_keyword_matches keywords s
    · by_cases h2 : Chunker.pyStrip s = ""
      · simp only [h1, if_true, ih]
        simp [h2]
      · simp only [h1, if_true, ih]
        simp [h2, List.append_assoc]
    · simp only [h1, if_false, ih]
      simp [h1]

theorem wordRunsAux_chars :
    ∀ (cs acc : List Char), (∀ c ∈ acc, isWordChar c = true) →
      ∀ run ∈ wordRunsAux cs acc, ∀ c ∈ run, isWordChar c = true := by
  intro cs
  induction cs with
  | nil =>
    intro acc hacc run hrun c hc
    rw [wordRunsAux] at hrun
    by_cases he : acc.isEmpty
    · simp [he] at hrun
    · simp only [he, Bool.false_eq_true, if_false, List.mem_singleton] at hrun
      subst hrun
      exact hacc c (List.mem_reverse.mp hc)
  | cons d cs ih =>
    intro acc hacc run hrun c hc
    rw [wordRunsAux] at hrun
    by_cases hw : isWordChar d
    · simp only [hw, if_true] at hrun
      refine ih (d :: acc) ?_ run hrun c hc
      intro x hx
      rcases List.mem_cons.mp hx with rfl | hx
      · exact hw
      · exact hacc x hx
    · simp only [hw, Bool.false_eq_true, if_false] at hrun
      by_cases he : acc.isEmpty
      · simp only [he, if_true] at hrun
        exact ih [] (by simp) run hrun c hc
      · simp only [he, Bool.false_eq_true, if_false] at hrun
        rcases List.mem_cons.mp hrun with rfl | hrun
        · exact hacc c (List.mem_reverse.mp hc)
        · exact ih [] (by simp) run hrun c hc

theorem extract_keywords_chars (text : String) :
    ∀ k ∈ extract_keywords text,
      k.data ≠ [] ∧ ∀ c ∈ k.data, isWordChar c = true := by
  intro k hk
  rw [extract_keywords] at hk
  have hmem := List.mem_of_mem_filter hk
  have hcond := List.of_mem_filter hk
  rw [List.mem_map] at hmem
  obtain ⟨run, hrun, rfl⟩ := hmem
  constructor
  · rw [Bool.and_eq_true] at hcond
    have hlen := of_decide_eq_true hcond.2
    intro hnil
    rw [show (String.mk run).data = run from rfl] at hnil
    subst hnil
    simp [String.length] at hlen
  · intro c hc
    exact wordRunsAux_chars text.data [] (by simp) run hrun c hc

theorem splitRuns_chars (p : Char → Bool) :
    ∀ cs : List Char,
      (∀ cur piece, piece ∈ splitRunsAux p cs cur →
        ∀ c ∈ piece, c ∈ cs ∨ c ∈ cur) ∧
      (∀ piece, piece ∈ splitRunsSkip p cs → ∀ c ∈ piece, c ∈ cs) := by
  intro cs
  induction cs with
  | nil =>
    constructor
    · intro cur piece hpiece c hc
      rw [splitRunsAux, List.mem_singleton] at hpiece
      subst hpiece
      exact Or.inr (List.mem_reverse.mp hc)
    · intro piece hpiece c hc
      rw [splitRunsSkip, List.mem_singleton] at hpiece
      subst hpiece
      simp at hc
  | cons d cs ih =>
    constructor
    · intro cur piece hpiece c hc
      rw [splitRunsAux] at hpiece
      by_cases hp : p d
      · simp only [hp, if_true] at hpiece
        rcases List.mem_cons.mp hpiece with rfl | hpiece
        · exact Or.inr (List.mem_reverse.mp hc)
        · exact Or.inl (List.mem_cons_of_mem _ (ih.2 piece hpiece c hc))
      · simp only [hp, Bool.false_eq_true, if_false] at hpiece
        rcases ih.1 (d :: cur) piece hpiece c hc with h | h
        · exact Or.inl (List.mem_cons_of_mem _ h)
        · rcases List.mem_cons.mp h with rfl | h
          · exact Or.inl (List.mem_cons_self _ _)
          · exact Or.inr h
    · intro piece hpiece c hc
      rw [splitRunsSkip] at hpiece
      by_cases hp : p d
      · simp only [hp, if_true] at hpiece
        exact List.mem_cons_of_mem _ (ih.2 piece hpiece c hc)
      · simp only [hp, Bool.false_eq_true, if_false] at hpiece
        rcases ih.1 [d] piece hpiece c hc with h | h
        · exact List.mem_cons_of_mem _ h
        · rw [List.mem_singleton] at h
          subst h
          exact List.mem_cons_self _ _

theorem mem_sentencesOf_chars (context : String) :
    ∀ s ∈ sentencesOf context, ∀ c ∈ s.data, c ∈ context.data := by
  intro s hs c hc
  rw [sentencesOf, List.mem_map] at hs
  obtain ⟨piece, hpiece, rfl⟩ := hs
  rcases (splitRuns_chars isSentenceSep context.data).1 [] piece hpiece c hc with h | h
  · exact h
  · simp at h

theorem not_isWhitespace_of_isWordChar_toLower (c : Char)
    (h : isWordChar c.toLower = true) : c.isWhitespace = false := by
  by_contra hws
  rw [Bool.not_eq_false, Char.isWhitespace] at hws
  simp only [Bool.or_eq_true, decide_eq_true_eq] at hws
  rcases hws with ((rfl | rfl) | rfl) | rfl <;> simp [isWordChar, Char.toLower] at h

theorem pyStripChars_ne_nil {cs : List Char} {c : Char} (hc : c ∈ cs)
    (hw : c.isWhitespace = false) : Chunker.pyStripChars cs ≠ [] := by
  intro h
  rw [Chunker.pyStripChars, List.reverse_eq_nil_iff, List.dropWhile_eq_nil_iff] at h
  have hall : ∀ x ∈ cs.dropWhile Char.isWhitespace, x.isWhitespace = true := by
    intro x hx
    exact h x (List.mem_reverse.mpr hx)
  have : c.isWhitespace = true := by
    have hsplit := List.takeWhile_append_dropWhile Char.isWhitespace cs
    rw [← hsplit] at hc
    rcases List.mem_append.mp hc with h1 | h1
    · exact List.mem_takeWhile_imp h1
    · exact hall c h1
  rw [this] at hw
  simp at hw

theorem pyStrip_ne_empty {s : String} {c : Char} (hc : c ∈ s.data)
    (hw : c.isWhitespace = false) : Chunker.pyStrip s ≠ "" := by
  intro h
  have : Chunker.pyStripChars s.data = [] := by
    have := congrArg String.data h
    simpa [Chunker.pyStrip] using this
  exact pyStripChars_ne_nil hc hw this

theorem sentence_with_match_has_word_char (text s : String)
    (h : 0 < count_keyword_matches (extract_keywords text) s) :
    ∃ c ∈ s.data, c.isWhitespace = false := by
  rw [count_keyword_matches, List.countP_pos] at h
  obtain ⟨k, hk, hstr⟩ := h
  obtain ⟨hne, hchars⟩ := extract_keywords_chars text k hk
  rw [str_in] at hstr
  obtain ⟨l, r, hlr⟩ := containsSubList_exists k.data (lowerStr s).data hstr
  cases hkd : k.data with
  | nil => exact absurd hkd hne
  | cons c0 krest =>
    have hc0 : c0 ∈ (lowerStr s).data := by
      rw [hlr, hkd]
      simp
    have hc0low : c0 ∈ s.data.map Char.toLower := by
      simpa [lowerStr] using hc0
    rw [List.mem_map] at hc0low
    obtain ⟨c', hc', hc'low⟩ := hc0low
    refine ⟨c', hc', ?_⟩
    have hword : isWordChar c0 = true := hchars c0 (by rw [hkd]; simp)
    rw [← hc'low] at hword
    exact not_isWhitespace_of_isWordChar_toLower c' hword

/-- C7: for every query and every non-empty context in which at least one
sentence (split on `.`/`!`/`?` runs) has at least one query-keyword match
(keywords: query words lowercased, stop words and words of length ≤ 2
dropped; matching is case-insensitive substring), `generate_response`
returns the fixed preamble followed by at most 3 sentences — exactly the
kept sentences with the highest match counts in descending count order,
original order preserved on ties — joined by newlines; and on the §8
example the two balance-related sentences are returned (in that order) and
the weather sentence is not. -/
theorem generate_response_extractive (prompt context : String)
    (retrieveHits : Except Unit (List RAG.Hit))
    (hctx : context ≠ "")
    (hmatch : ∃ s ∈ sentencesOf context,
      0 < count_keyword_matches (extract_keywords (lowerStr prompt)) s) :
    generate_response prompt context retrieveHits =
      Except.ok ("Based on the book content:\n\n" ++
        String.intercalate "\n"
          ((rankedByCountDesc (extract_keywords (lowerStr prompt))
            (keptSentences context
              (extract_keywords (lowerStr prompt)))).take 3)) ∧
    generate_response "what is balance control?"
        "Balance control uses sensors. The weather is nice. Balance is key for bipeds."
        retrieveHits =
      Except.ok
        "Based on the book content:\n\nBalance control uses sensors\nBalance is key for bipeds" := by
  constructor
  · obtain ⟨s, hsmem, hscnt⟩ := hmatch
    have hsw : ∃ c ∈ s.data, c.isWhitespace = false := by
      have : lowerStr prompt = lowerStr prompt := rfl
      exact sentence_with_match_has_word_char (lowerStr prompt) s hscnt
    obtain ⟨c, hcs, hcw⟩ := hsw
    have hstrip_s : Chunker.pyStrip s ≠ "" := pyStrip_ne_empty hcs hcw
    have hstrip_ctx : Chunker.pyStrip context ≠ "" :=
      pyStrip_ne_empty (mem_sentencesOf_chars context s hsmem c hcs) hcw
    have hkept : keptSentences context (extract_keywords (lowerStr prompt)) ≠ [] := by
      rw [keptSentences_eq]
      intro hnil
      rw [List.map_eq_nil_iff] at hnil
      have : s ∈ (sentencesOf context).filter
          (fun s => decide (0 < count_keyword_matches
            (extract_keywords (lowerStr prompt)) s) &&
            decide (Chunker.pyStrip s ≠ "")) := by
        rw [List.mem_filter]
        exact ⟨hsmem, by simp [hscnt, hstrip_s]⟩
      rw [hnil] at this
      simp at this
    have hrel : find_relevant_sentences context
        (extract_keywords (lowerStr prompt)) ≠ [] := by
      rw [find_relevant_sentences]
      intro hnil
      have := sortByCountDesc_length (extract_keywords (lowerStr prompt))
        (keptSentences context (extract_keywords (lowerStr prompt)))
      rw [hnil] at this
      exact hkept (List.length_eq_zero.mp this.symm)
    have hceq : (context == "") = false := by
      simpa using hctx
    have hpseq : (Chunker.pyStrip context == "") = false := by
      simpa using hstrip_ctx
    rw [generate_response]
    simp only [hceq, Bool.and_false, Bool.false_eq_true, if_false, Except.map]
    rw [answer_from_context]
    simp only [hpseq, Bool.false_and, Bool.false_eq_true, if_false]
    rw [if_pos hrel, find_relevant_sentences, sortByCountDesc_eq_ranked]
  · rfl

/-- C7 witness: the theorem applied to the §8 example query and context. -/
theorem generate_response_extractive_witness :
    LocalResponse.generate_response "what is balance control?"
        "Balance control uses sensors. The weather is nice. Balance is key for bipeds."
        (Except.ok []) =
      Except.ok
        "Based on the book content:\n\nBalance control uses sensors\nBalance is key for bipeds" :=
  (generate_response_extractive "what is balance control?"
    "Balance control uses sensors. The weather is nice. Balance is key for bipeds."
    (Except.ok []) (by decide)
    ⟨"Balance control uses sensors", by decide, by decide⟩).2

end LocalResponse

namespace LLM

open PyStr

/-- The ultimate fallback text of `LLMService.generate_response`
(llm_service.py line 52). -/
def llm_unavailable_message : String :=
  "Sorry, the AI service is not available at the moment."

/-- `LLMService.generate_response(prompt, context)` (llm_service.py lines
36-52): `primary` is the configured primary provider's call outcome (`none`
when no provider is configured, `some (Except.error _)` when the call
raises); on a primary exception the other configured provider is called and
its outcome — including a raised exception — is returned as-is (there is no
`try` around the fallback call); with no usable provider the fixed
unavailable message is returned. -/
def generate_response (primary secondary : Option (Except Unit String)) :
    Except Unit String :=
  match primary with
  | none => Except.ok llm_unavailable_message
  | some (Except.ok t) => Except.ok t
  | some (Except.error _) =>
    match secondary with
    | some r => r
    | none => Except.ok llm_unavailable_message

/-- The error-signature check of chat.py line 57:
`"Sorry, I encountered an error" in response_text or "encountered an error"
in response_text`. -/
def error_signature (t : String) : Bool :=
  str_in "Sorry, I encountered an error" t || str_in "encountered an error" t

/-- The final fallback message of chat.py lines 99-100. -/
def trouble_message : String :=
  "Based on the book: I found information about this topic in the book, but I'm having trouble generating a full response. Please check if the book content covers this topic."

/-- The response text produced by the non-off-topic path of `chat_stream`
(chat.py lines 38-101) for one request: the LLM result is checked for an
error signature (falling back to the local responder), a raised LLM
exception falls back to the local responder, and the outer `except` recovers
from any exception by retrieving again and calling the local responder with
the rebuilt context, yielding a fixed message if that also raises.
`retrieveHits` is this request's retrieval outcome. -/
def chat_stream_response (llmResult : Except Unit String)
    (message full_context : String)
    (retrieveHits : Except Unit (List RAG.Hit)) : String :=
  let inner : Except Unit String :=
    match llmResult with
    | Except.ok t =>
      if error_signature t then
        LocalResponse.generate_response message full_context retrieveHits
      else
        Except.ok t
    | Except.error _ =>
      LocalResponse.generate_response message full_context retrieveHits
  match inner with
  | Except.ok t => t
  | Except.error _ =>
    let recovery : Except Unit String :=
      match retrieveHits with
      | Except.error e => Except.error e
      | Except.ok hits =>
        LocalResponse.generate_response message
          (RAG.build_context hits).1 retrieveHits
    match recovery with
    | Except.ok t => t
    | Except.error _ => trouble_message

/-- C3 counterexample: the local responder is not exception-free — called
with a book-related prompt and an empty context it re-runs retrieval, and
when that retrieval raises (rag.py's `retrieve` has no try/except) the
exception propagates out of `generate_response`. -/
theorem local_generate_response_throws :
    LocalResponse.generate_response "robot" "" (Except.error ()) =
      Except.error () := rfl

theorem string_append_ne_empty_left (s t : String) (h : s.data ≠ []) :
    s ++ t ≠ "" := by
  intro heq
  have := congrArg String.data heq
  rw [String.data_append] at this
  simp at this
  exact h this.1

theorem string_append_data_ne (s t : String) (h : s.data ≠ []) :
    (s ++ t).data ≠ [] := by
  rw [String.data_append]
  intro hh
  exact h (List.append_eq_nil.mp hh).1

theorem answer_from_context_ne_empty (prompt ctx : String) :
    LocalResponse.answer_from_context prompt ctx ≠ "" := by
  rw [LocalResponse.answer_from_context]
  by_cases h1 : (Chunker.pyStrip ctx == "" &&
      !LocalResponse.book_related_keywords.any
        (fun k => str_in k (lowerStr prompt))) = true
  · rw [if_pos h1]
    decide
  · rw [if_neg h1]
    by_cases h2 : (Chunker.pyStrip ctx == "") = true
    · rw [if_pos h2]
      decide
    · rw [if_neg h2]
      by_cases h3 : LocalResponse.find_relevant_sentences ctx
          (LocalResponse.extract_keywords (lowerStr prompt)) ≠ []
      · rw [if_pos h3]
        exact string_append_ne_empty_left _ _ (by decide)
      · rw [if_neg h3]
        by_cases h4 : 500 < ctx.length
        · rw [if_pos h4]
          exact string_append_ne_empty_left _ _
            (string_append_data_ne _ _ (by decide))
        · rw [if_neg h4]
          exact string_append_ne_empty_left _ _ (by decide)

theorem local_generate_response_ok (message ctx : String)
    (hits : List RAG.Hit) :
    ∃ t, LocalResponse.generate_response message ctx (Except.ok hits) =
        Except.ok t ∧ t ≠ "" := by
  rw [LocalResponse.generate_response]
  by_cases h1 : ((!LocalResponse.book_related_keywords.any
      (fun k => str_in k (lowerStr message))) && (ctx == "")) = true
  · rw [if_pos h1]
    exact ⟨_, rfl, by decide⟩
  · rw [if_neg h1]
    by_cases h2 : (ctx == "") = true
    · rw [if_pos h2]
      simp only [Except.map]
      exact ⟨_, rfl, answer_from_context_ne_empty _ _⟩
    · rw [if_neg h2]
      simp only [Except.map]
      exact ⟨_, rfl, answer_from_context_ne_empty _ _⟩

/-- C3 amended: when the primary provider raises and the secondary provider
raises or returns error-signature text, and this request's retrieval does
not raise, `chat_stream`'s response is exactly the local extractive
responder's successful output, which is non-empty — so no exception reaches
the caller and the user gets the local answer.  (Unconditionally the local
responder is *not* exception-free: see the counterexample.) -/
theorem chat_stream_local_fallback (message full_context : String)
    (secondary : Except Unit String) (hits : List RAG.Hit)
    (hsec : secondary = Except.error () ∨
      ∃ t, secondary = Except.ok t ∧ error_signature t = true) :
    LocalResponse.generate_response message full_context (Except.ok hits) =
      Except.ok (chat_stream_response
        (generate_response (some (Except.error ())) (some secondary))
        message full_context (Except.ok hits)) ∧
    chat_stream_response
        (generate_response (some (Except.error ())) (some secondary))
        message full_context (Except.ok hits) ≠ "" := by
  obtain ⟨t, hok, hne⟩ := local_generate_response_ok message full_context hits
  have hllm : generate_response (some (Except.error ())) (some secondary) =
      secondary := rfl
  have hresp : chat_stream_response
      (generate_response (some (Except.error ())) (some secondary))
      message full_context (Except.ok hits) = t := by
    rcases hsec with rfl | ⟨u, rfl, hsig⟩
    · simp only [hllm, chat_stream_response, hok]
    · simp only [hllm, chat_stream_response, hsig, if_true, hok]
  rw [hresp, hok]
  exact ⟨rfl, hne⟩

/-- C3 witness: the amended theorem at a concrete failing secondary
provider. -/
theorem chat_stream_local_fallback_witness :
    LocalResponse.generate_response "robot" "ctx" (Except.ok []) =
      Except.ok (chat_stream_response
        (generate_response (some (Except.error ())) (some (Except.error ())))
        "robot" "ctx" (Except.ok [])) ∧
    chat_stream_response
        (generate_response (some (Except.error ())) (some (Except.error ())))
        "robot" "ctx" (Except.ok []) ≠ "" :=
  chat_stream_local_fallback "robot" "ctx" (Except.error ()) []
    (Or.inl rfl)

/-- C10: with no LLM provider configured (`primary_service is None`),
`LLMService.generate_response` returns the fixed unavailable message
without raising; that message does not contain the error signature
"encountered an error", so `chat_stream` passes it through unchanged — the
local extractive fallback is not invoked and the user receives the
provider-unavailable message. -/
theorem llm_unconfigured_passthrough :
    (∀ secondary, generate_response none secondary =
      Except.ok llm_unavailable_message) ∧
    error_signature llm_unavailable_message = false ∧
    (∀ (message full_context : String)
        (retrieveHits : Except Unit (List RAG.Hit)),
      chat_stream_response (generate_response none none)
          message full_context retrieveHits = llm_unavailable_message) := by
  refine ⟨fun _ => rfl, rfl, fun message full_context retrieveHits => rfl⟩

end LLM

namespace Qdrant

/-- `QdrantService.search` (qdrant_service.py lines 34-51): with no
initialized client (`client` is `none`) it logs and returns `[]`; with a
client, the underlying search call's outcome (`searchCall`, raising
modelled as `Except.error`) is caught and `[]` returned on exception,
otherwise the result payloads are returned. -/
def search {α : Type} (client : Option Unit)
    (searchCall : Except Unit (List α)) : List α :=
  match client with
  | none => []
  | some _ =>
    match searchCall with
    | Except.error _ => []
    | Except.ok results => results

/-- `RAGService.retrieve` (rag.py lines 28-62): embed the query, search the
index, map the hits — with no `try`/`except`, so an exception from the
embedding call or the search call propagates to the caller.  `V` is the
embedding vector type, `P` the raw search-hit type, `R` the result-dict
type. -/
def rag_retrieve {V P R : Type} (query_embedding : Except Unit V)
    (searchCall : V → Except Unit (List P)) (mkResult : P → R) :
    Except Unit (List R) :=
  match query_embedding with
  | Except.error e => Except.error e
  | Except.ok qe =>
    match searchCall qe with
    | Except.error e => Except.error e
    | Except.ok results => Except.ok (results.map mkResult)

/-- C8 counterexample: `RAGService.retrieve` does not swallow a failing
search — when the search call raises, `retrieve` propagates the exception
instead of returning an empty hit list. -/
theorem rag_retrieve_propagates :
    rag_retrieve (Except.ok ()) (fun _ => (Except.error () : Except Unit (List Unit)))
        (fun p => p) =
      Except.error () ∧
    rag_retrieve (Except.ok ()) (fun _ => (Except.error () : Except Unit (List Unit)))
        (fun p => p) ≠
      Except.ok [] := by
  exact ⟨rfl, fun h => Except.noConfusion h⟩

/-- C8 amended: `QdrantService.search` does return an empty hit list when
the client is not initialized or the search call raises; but
`RAGService.retrieve` (rag.py), the retrieval operation used by the chat
route, propagates embedding/search exceptions to its caller (they are only
caught further up, in `chat_stream`'s outer handler). -/
theorem search_swallows_retrieve_propagates :
    (∀ (α : Type) (searchCall : Except Unit (List α)),
      search none searchCall = []) ∧
    (∀ (α : Type), search (some ()) (Except.error () : Except Unit (List α)) = []) ∧
    (∀ (V P R : Type) (searchCall : V → Except Unit (List P)) (mkResult : P → R),
      rag_retrieve (Except.error ()) searchCall mkResult = Except.error ()) ∧
    (∀ (V P R : Type) (qe : V) (mkResult : P → R),
      rag_retrieve (Except.ok qe) (fun _ => (Except.error () : Except Unit (List P)))
        mkResult = Except.error ()) := by
  exact ⟨fun _ _ => rfl, fun _ => rfl, fun _ _ _ _ _ => rfl, fun _ _ _ _ _ => rfl⟩

end Qdrant

namespace BackendRAG

/-- The value of a hexadecimal digit (md5 hexdigests use `0`-`9`, `a`-`f`). -/
def hexVal (c : Char) : Nat :=
  if c.isDigit then c.toNat - '0'.toNat
  else c.toNat - 'a'.toNat + 10

/-- Python `int(chunk, 16)` on a hex-digit string. -/
def hexListVal (cs : List Char) : Nat :=
  cs.foldl (fun n c => 16 * n + hexVal c) 0

/-- The digest chunks `hex_dig[i:i+4]` for `i in range(0, len(hex_dig), 4)`. -/
def chunks4 {α : Type} : List α → List (List α)
  | [] => []
  | c :: cs => (c :: cs.take 3) :: chunks4 (cs.drop 3)
termination_by l => l.length
decreasing_by
  simp only [List.length_drop, List.length_cons]
  omega

/-- The hash-derived fallback query embedding of
`RAGService._get_query_embedding` (backend rag_service.py lines 31-52):
md5-hexdigest the query (`md5hex` models `hashlib.md5(...).hexdigest()`),
turn each complete 4-hex-digit chunk into `int(chunk,16) / (16**4 - 1)`
(exact rational arithmetic models the float), then pad with `0.0` up to and
truncate to 1024 entries. -/
def hash_fallback_embedding (md5hex : String → String) (query : String) :
    List ℚ :=
  let hex_dig := (md5hex query).data
  let base : List ℚ := (chunks4 hex_dig).filterMap
    (fun chunk => if chunk.length = 4 then
        some ((hexListVal chunk : ℚ) / ((16 : ℚ) ^ 4 - 1))
      else none)
  (base ++ List.replicate (1024 - base.length) 0).take 1024

/-- `RAGService._get_query_embedding(query)` (backend rag_service.py lines
27-67): with no `COHERE_API_KEY` configured the hash-derived fallback is
returned directly — no caller opt-in exists in the signature; with a key,
the Cohere embedding is returned, or the all-zero 1024-vector when that
call raises. -/
def get_query_embedding (cohere_api_key : Option String)
    (cohere_call : Except Unit (List ℚ)) (md5hex : String → String)
    (query : String) : List ℚ :=
  match cohere_api_key with
  | none => hash_fallback_embedding md5hex query
  | some _ =>
    match cohere_call with
    | Except.ok v => v
    | Except.error _ => List.replicate 1024 0

/-- A concrete md5 stand-in for witnesses (a fixed 32-hex-digit digest). -/
def md5c : String → String :=
  fun _ => "0123456789abcdef0123456789abcdef"

/-- C9 counterexample: with no embedding API key configured, the adapter
itself returns the hash-derived fallback vector — the caller never opts in
(the function has no opt-in parameter at all), refuting the claim that the
fallback is "never silently substituted by the adapter itself when no
embedding API key is configured". -/
theorem get_query_embedding_silent_fallback :
    get_query_embedding none (Except.error ()) md5c "any query" =
      hash_fallback_embedding md5c "any query" := rfl

/-- C9 amended: the hash-derived fallback embedding is a deterministic
function of the query text (it depends only on the query's md5 digest, so
two calls with the same text produce the identical vector) and always has
the fixed dimension 1024; but the adapter substitutes it silently whenever
`COHERE_API_KEY` is unset — there is no caller opt-in. -/
theorem hash_fallback_embedding_spec (md5hex : String → String)
    (cohere_call : Except Unit (List ℚ)) (query : String) :
    (hash_fallback_embedding md5hex query).length = 1024 ∧
    (∀ q1 q2 : String, md5hex q1 = md5hex q2 →
      hash_fallback_embedding md5hex q1 = hash_fallback_embedding md5hex q2) ∧
    get_query_embedding none cohere_call md5hex query =
      hash_fallback_embedding md5hex query := by
  refine ⟨?_, ?_, rfl⟩
  · rw [hash_fallback_embedding]
    rw [List.length_take, List.length_append, List.length_replicate]
    omega
  · intro q1 q2 h
    rw [hash_fallback_embedding, hash_fallback_embedding, h]

/-- C9 witness: the amended theorem at the concrete md5 stand-in, showing
the fixed 1024 dimension and the silent substitution at a concrete query. -/
theorem hash_fallback_embedding_spec_witness :
    (hash_fallback_embedding md5c "hello").length = 1024 ∧
    hash_fallback_embedding md5c "hello" = hash_fallback_embedding md5c "hello" ∧
    get_query_embedding none (Except.error ()) md5c "hello" =
      hash_fallback_embedding md5c "hello" :=
  ⟨(hash_fallback_embedding_spec md5c (Except.error ()) "hello").1,
    (hash_fallback_embedding_spec md5c (Except.error ()) "hello").2.1 "hello"
      "hello" rfl,
    (hash_fallback_embedding_spec md5c (Except.error ()) "hello").2.2⟩

end BackendRAG
